import Mathlib

/-!
Verification of the pcapng-to-HAR conversion pipeline (`pcapng_to_har.py`).

The orchestration script (`cli`, `pcapng_to_har`) is embedded faithfully from
the source.  External collaborators that the script imports (the tshark
wrapper, the traffic dump, the two enrichers, the JSON writer) are modelled
from the specification; each such definition carries a doc comment starting
with `Modelled from the spec:`.

Paths are modelled as strings; a path string is split at its last `/` into a
directory part and a file name, and `Path.with_suffix` is modelled on the
name exactly as `pathlib` computes it (the last dot of the name counts as a
suffix separator only when it is neither the first nor the last character of
the name).
-/

set_option autoImplicit false
set_option maxRecDepth 8192

/-- State of a path in the modelled filesystem: absent, a regular file with
string content, or present but not a regular file (e.g. a directory). -/
inductive FileState where
  | absent
  | regular (content : String)
  | notRegular
deriving DecidableEq, Repr

/-- The filesystem is an association list from path to state; later writes
shadow earlier entries. -/
abbrev FS := List (String × FileState)

/-- Look up the state of a path; paths without an entry are absent. -/
def FS.stat : FS → String → FileState
  | [], _ => .absent
  | (q, st) :: rest, p => if q = p then st else FS.stat rest p

/-- Writing a regular file at a path (used both for `save_har` and for the
plain `open("w")`/`json.dump` at the end of the pipeline). -/
def FS.write (fs : FS) (p : String) (c : String) : FS := (p, .regular c) :: fs

/-- Split a character list on every occurrence of `sep`; the result is the
nonempty list of (possibly empty) fields. -/
def splitOnChar (sep : Char) : List Char → List (List Char)
  | [] => [[]]
  | c :: cs =>
    match splitOnChar sep cs with
    | [] => [[]]
    | r :: rs => if c = sep then [] :: r :: rs else (c :: r) :: rs

/-- Split a path into the directory part (including the final slash) and the
file name, so that the two concatenate back to the path. -/
def splitPath : List Char → List Char × List Char
  | [] => ([], [])
  | c :: cs =>
    let p := splitPath cs
    if p.1 = [] then
      if c = '/' then ([c], cs) else ([], c :: cs)
    else (c :: p.1, p.2)

/-- Index of the last `.` in a name, if any, starting the count at `i`. -/
def lastDotIdxAux : List Char → Nat → Option Nat
  | [], _ => none
  | c :: cs, i =>
    match lastDotIdxAux cs (i + 1) with
    | some j => some j
    | none => if c = '.' then some i else none

/-- Index of the last `.` in a name, if any. -/
def lastDotIdx (l : List Char) : Option Nat := lastDotIdxAux l 0

/-- Where the pathlib suffix of a name starts: the last dot, provided it is
neither the first nor the last character of the name. -/
def suffixStart (l : List Char) : Option Nat :=
  match lastDotIdx l with
  | none => none
  | some i => if 0 < i ∧ i + 1 < l.length then some i else none

/-- The pathlib suffix of a file name (`[]` when the name has none). -/
def pathSuffixNameL (l : List Char) : List Char :=
  match suffixStart l with
  | none => []
  | some i => l.drop i

/-- Replace the pathlib suffix of a file name (append when there is none),
as `PurePath.with_suffix` does. -/
def withSuffixNameL (l suf : List Char) : List Char :=
  match suffixStart l with
  | none => l ++ suf
  | some i => l.take i ++ suf

/-- The pathlib suffix of a path string. -/
def pathSuffixS (s : String) : String := ⟨pathSuffixNameL (splitPath s.data).2⟩

/-- `Path(s).with_suffix(".har")`, as a string. -/
def withSuffixHarS (s : String) : String :=
  ⟨(splitPath s.data).1 ++ withSuffixNameL (splitPath s.data).2 ".har".data⟩

/-- A remote endpoint (address and port) used to correlate socket operations
with HAR entries. -/
structure Endpoint where
  host : String
  port : Nat
deriving DecidableEq, Repr

/-- Body content of one side of a HAR entry: MIME type, text, and the
optional encoding marker (`base64` for binary bodies). -/
structure Content where
  mimeType : String
  text : String
  encoding : Option String
deriving DecidableEq, Repr

/-- The vendor extension area of a HAR entry, which enrichment passes write:
the attached call-stack frames and the two decryption provenance flags. -/
structure ExtArea where
  stacktrace : Option (List String)
  decryptedRequest : Bool
  decryptedResponse : Bool
deriving DecidableEq, Repr

/-- An extension area with nothing attached. -/
def ExtArea.empty : ExtArea := ⟨none, false, false⟩

/-- One HAR entry: start time, remote endpoint, the two body contents, and
the mutable extension area. -/
structure HarEntry where
  startTime : Int
  serverEndpoint : Endpoint
  requestContent : Content
  responseContent : Content
  ext : ExtArea
deriving DecidableEq, Repr

/-- A HAR document: the ordered list of entries. -/
structure HarDoc where
  entries : List HarEntry
deriving DecidableEq, Repr

/-- Direction of a cryptographic operation record. -/
inductive Direction where
  | request
  | response
deriving DecidableEq, Repr

/-- Modelled from the spec: a SocketOperationRecord of the socket-operations
feed (§3): process id, timestamp, remote endpoint, and call-stack frames
(the fields the §4.4 join algorithm consults). -/
structure SocketOpRecord where
  pid : Nat
  timestamp : Int
  remoteEndpoint : Endpoint
  frames : List String
deriving DecidableEq, Repr

/-- Modelled from the spec: a CryptoOperationRecord of the cryptography
feed (§3): correlation handle, direction, ciphertext identity, plaintext. -/
structure CryptoOpRecord where
  handle : String
  direction : Direction
  ciphertextId : String
  plaintext : String
deriving DecidableEq, Repr

/-- Modelled from the spec: the bounded time window of the §4.4 join. -/
def stacktraceWindow : Int := 10

/-- Modelled from the spec: whether a socket-operation record is a candidate
for a HAR entry (§4.4): same remote endpoint, timestamp at or before the
entry start, within the bounded window. -/
def socketCandidate (e : HarEntry) (r : SocketOpRecord) : Bool :=
  decide (r.remoteEndpoint = e.serverEndpoint) &&
    decide (r.timestamp ≤ e.startTime) &&
    decide (e.startTime - r.timestamp ≤ stacktraceWindow)

/-- Modelled from the spec: pick the better of two candidates (§4.4): the
closest preceding timestamp, breaking ties by smallest process id. -/
def pickBetter (a b : SocketOpRecord) : SocketOpRecord :=
  if a.timestamp < b.timestamp then b
  else if b.timestamp < a.timestamp then a
  else if b.pid < a.pid then b else a

/-- Modelled from the spec: the socket-operation record the §4.4 join
selects for an entry, if any. -/
def stacktraceMatch (recs : List SocketOpRecord) (e : HarEntry) : Option SocketOpRecord :=
  (recs.filter (socketCandidate e)).foldl
    (fun acc r =>
      match acc with
      | none => some r
      | some a => some (pickBetter a r))
    none

/-- Attach call-stack frames to an entry's extension area. -/
def setStacktrace (e : HarEntry) (f : List String) : HarEntry :=
  { e with ext := { e.ext with stacktrace := some f } }

/-- Modelled from the spec: content after decryption (§4.5): the plaintext,
with MIME type and encoding updated to reflect plaintext. -/
def plaintextContent (pt : String) : Content := ⟨"text/plain", pt, none⟩

/-- Replace the request body with plaintext and record the provenance. -/
def setDecryptedRequest (e : HarEntry) (pt : String) : HarEntry :=
  { e with requestContent := plaintextContent pt,
           ext := { e.ext with decryptedRequest := true } }

/-- Replace the response body with plaintext and record the provenance. -/
def setDecryptedResponse (e : HarEntry) (pt : String) : HarEntry :=
  { e with responseContent := plaintextContent pt,
           ext := { e.ext with decryptedResponse := true } }

/-- Modelled from the spec: the content hash used to resolve a correlation
handle from the stored ciphertext (§4.5); modelled as the identity. -/
def contentHash (s : String) : String := s

/-- Modelled from the spec: look up the crypto record matching a stored
content in the given direction (§4.5). -/
def cryptoMatch (recs : List CryptoOpRecord) (dir : Direction) (c : Content) :
    Option CryptoOpRecord :=
  recs.find? (fun r => decide (r.direction = dir) && decide (r.ciphertextId = contentHash c.text))

/-- Modelled from the spec: the Stacktrace Enricher on one entry (§4.4):
attach the matched record's frames, or leave the entry unmodified. -/
def stacktraceEnrichEntry (recs : List SocketOpRecord) (e : HarEntry) : HarEntry :=
  match stacktraceMatch recs e with
  | none => e
  | some r => setStacktrace e r.frames

/-- Modelled from the spec: the Stacktrace Enricher on a document (§4.4). -/
def stacktraceEnrichDoc (recs : List SocketOpRecord) (d : HarDoc) : HarDoc :=
  ⟨d.entries.map (stacktraceEnrichEntry recs)⟩

/-- Modelled from the spec: the request half of the Content Decryption
Enricher on one entry (§4.5). -/
def decryptRequestPart (recs : List CryptoOpRecord) (e : HarEntry) : HarEntry :=
  match cryptoMatch recs .request e.requestContent with
  | none => e
  | some r => setDecryptedRequest e r.plaintext

/-- Modelled from the spec: the response half of the Content Decryption
Enricher on one entry (§4.5). -/
def decryptResponsePart (recs : List CryptoOpRecord) (e : HarEntry) : HarEntry :=
  match cryptoMatch recs .response e.responseContent with
  | none => e
  | some r => setDecryptedResponse e r.plaintext

/-- Modelled from the spec: the Content Decryption Enricher on one entry
(§4.5): the request and response sides are handled independently. -/
def decryptEnrichEntry (recs : List CryptoOpRecord) (e : HarEntry) : HarEntry :=
  decryptResponsePart recs (decryptRequestPart recs e)

/-- Modelled from the spec: the Content Decryption Enricher on a document
(§4.5). -/
def decryptEnrichDoc (recs : List CryptoOpRecord) (d : HarDoc) : HarDoc :=
  ⟨d.entries.map (decryptEnrichEntry recs)⟩

/-- Join a list of strings with a separator. -/
def joinSep (sep : String) : List String → String
  | [] => ""
  | [s] => s
  | s :: t :: rest => s ++ sep ++ joinSep sep (t :: rest)

/-- Render a boolean. -/
def boolS : Bool → String
  | true => "true"
  | false => "false"

/-- Render an optional string. -/
def optS : Option String → String
  | none => "null"
  | some s => s

/-- Modelled from the spec: rendering of a content object by the Document
Writer (an injective textual rendering standing in for the JSON text). -/
def serializeContent (c : Content) : String :=
  "(mime=" ++ c.mimeType ++ ";text=" ++ c.text ++ ";enc=" ++ optS c.encoding ++ ")"

/-- Modelled from the spec: rendering of the vendor extension area. -/
def serializeExt (x : ExtArea) : String :=
  "(st=" ++ (match x.stacktrace with
             | none => "null"
             | some fr => joinSep "|" fr) ++
  ";dreq=" ++ boolS x.decryptedRequest ++ ";dresp=" ++ boolS x.decryptedResponse ++ ")"

/-- Modelled from the spec: rendering of one HAR entry. -/
def serializeEntry (e : HarEntry) : String :=
  "(t=" ++ toString e.startTime ++
  ";host=" ++ e.serverEndpoint.host ++ ":" ++ toString e.serverEndpoint.port ++
  ";req=" ++ serializeContent e.requestContent ++
  ";resp=" ++ serializeContent e.responseContent ++
  ";ext=" ++ serializeExt e.ext ++ ")"

/-- Modelled from the spec: the Document Writer's rendering of the HAR
document as text (§2 component 6). -/
def serialize (d : HarDoc) : String :=
  "HAR[" ++ joinSep "," (d.entries.map serializeEntry) ++ "]"

/-- Keyword parameters accepted by `json.dump` / `JSONEncoder`; any other
keyword argument makes the dump raise `TypeError`. -/
def jsonDumpParams : List String :=
  ["skipkeys", "ensure_ascii", "check_circular", "allow_nan", "cls",
   "indent", "separators", "default", "sort_keys"]

/-- Whether a keyword list contains a key `json.dump` does not accept. -/
def hasStray (ks : List String) : Bool :=
  ks.any (fun k => !(jsonDumpParams.contains k))

/-- Exceptions the embedded pipeline can raise. -/
inductive PyErr where
  | assertionError (msg : String)
  | fileExistsError (path : String)
  | fileNotFoundError (path : String)
  | decodeError (msg : String)
  | typeError (msg : String)
  | runtimeError (arg : String) (cause : PyErr)
deriving DecidableEq, Repr

/-- Severity of a log message. -/
inductive LogLevel where
  | info
  | warning
  | error
deriving DecidableEq, Repr

/-- The two enrichment passes. -/
inductive Pass where
  | stacktrace
  | decryption
deriving DecidableEq, Repr

/-- Observable events of one pipeline run: log messages, `json.dump` calls
with their keyword names, completed file writes, the truncation performed by
`open("w")`, and enrichment-pass executions. -/
inductive Event where
  | logE (lvl : LogLevel) (msg : String)
  | jsonDump (path : String) (kwKeys : List String)
  | fsWrite (path : String) (content : String)
  | fsTruncate (path : String)
  | enrichCall (p : Pass)
deriving DecidableEq, Repr

/-- Outcome of a run: final filesystem, ordered event trace, the exception
if one escaped, and two ghost observables: the document as first serialized
(`harBase`) and the document at the end of the enrichment stage
(`harFinal`). -/
structure RunOutcome where
  fs : FS
  events : List Event
  err : Option PyErr
  harBase : Option HarDoc
  harFinal : Option HarDoc
deriving DecidableEq, Repr

/-- The tshark wrapper handle (`Tshark(tshark_path)`). -/
structure TsharkH where
  path : String
deriving DecidableEq, Repr

/-- The default wrapper built by `Tshark()`. -/
def defaultTshark : TsharkH := ⟨"/usr/bin/tshark"⟩

/-- Recognize the modelled capture magic at the head of a file. -/
def hasMagic : List Char → Bool
  | 'P' :: 'C' :: 'A' :: 'P' :: 'N' :: 'G' :: _ => true
  | _ => false

/-- Modelled from the spec: the Packet Record Reader, Reassembler and HAR
Projector (§4.1-§4.3) collapsed at the granularity the orchestration sees: a
decodable capture yields a HAR document with one complete entry whose bodies
derive from the capture payload. -/
def mkBaseDoc (payload : String) : HarDoc :=
  ⟨[{ startTime := 0,
      serverEndpoint := ⟨"203.0.113.5", 443⟩,
      requestContent := ⟨"application/octet-stream", payload, some "base64"⟩,
      responseContent := ⟨"application/octet-stream", payload ++ ":resp", some "base64"⟩,
      ext := ExtArea.empty }]⟩

/-- Modelled from the spec: decoding of raw capture bytes (§4.1): fails with
a DecodeError on a malformed stream. -/
def decodePcap (s : String) : Option HarDoc :=
  if hasMagic s.data then some (mkBaseDoc ⟨s.data.drop 6⟩) else none

/-- Modelled from the spec: `tshark.load_traffic` followed by
`parse_traffic`: reads the input file and decodes it, raising when the file
is unreadable or malformed. -/
def tsharkLoad (fs : FS) (input : String) : Except PyErr HarDoc :=
  match FS.stat fs input with
  | .regular c =>
    match decodePcap c with
    | some d => .ok d
    | none => .error (.decodeError input)
  | _ => .error (.fileNotFoundError input)

/-- Digits-to-number helper for the modelled feed parsers. -/
def natOfL (l : List Char) : Nat :=
  l.foldl (fun n c => n * 10 + (c.toNat - 48)) 0

/-- Parse `host:port` in a feed line. -/
def parseEndpointL (l : List Char) : Endpoint :=
  match splitOnChar ':' l with
  | [h, p] => ⟨⟨h⟩, natOfL p⟩
  | _ => ⟨⟨l⟩, 0⟩

/-- Parse one line `pid,timestamp,host:port,frame,...` of the socket feed. -/
def parseSocketLineL (l : List Char) : Option SocketOpRecord :=
  match splitOnChar ',' l with
  | pid :: ts :: ep :: frames =>
    if frames = [] then none
    else some ⟨natOfL pid, (natOfL ts : Int), parseEndpointL ep,
               frames.map (fun f => (⟨f⟩ : String))⟩
  | _ => none

/-- Modelled from the spec: the loader of the socket-operations feed (§5:
loaded once, fully, before the pass begins). -/
def parseSocketOps (s : String) : List SocketOpRecord :=
  (splitOnChar '\n' s.data).filterMap parseSocketLineL

/-- Parse one line `handle,direction,ciphertextId,plaintext` of the
cryptography feed. -/
def parseCryptoLineL (l : List Char) : Option CryptoOpRecord :=
  match splitOnChar ',' l with
  | [h, d, cid, pt] =>
    some ⟨⟨h⟩, if d = "req".data then .request else .response, ⟨cid⟩, ⟨pt⟩⟩
  | _ => none

/-- Modelled from the spec: the loader of the cryptography feed (§5). -/
def parseCryptoOps (s : String) : List CryptoOpRecord :=
  (splitOnChar '\n' s.data).filterMap parseCryptoLineL

/-- A Python value as passed through keyword arguments. -/
inductive PyVal where
  | vStr (s : String)
  | vNone
  | vBool (b : Bool)
  | vTshark (t : TsharkH)
deriving DecidableEq, Repr

/-- Coerce a keyword value to an optional string parameter. -/
def PyVal.asStr : PyVal → Option String
  | .vStr s => some s
  | _ => none

/-- Coerce a keyword value to a boolean parameter. -/
def PyVal.asBool : PyVal → Bool
  | .vBool b => b
  | _ => false

/-- Coerce a keyword value to an optional tshark handle. -/
def PyVal.asTshark : PyVal → Option TsharkH
  | .vTshark t => some t
  | _ => none

/-- The bound parameters of one `pcapng_to_har` call: the declared keyword
parameters, plus `json_dump_kws`, the `**`-collected rest. -/
structure Args where
  input : String
  output : Option String := none
  tshark : Option TsharkH := none
  socket_operations_file : Option String := none
  cryptography_operations_file : Option String := none
  overwrite : Bool := false
  json_dump_kws : List (String × PyVal) := []
deriving DecidableEq, Repr

/-- Bind one keyword argument of a `pcapng_to_har` call: a name matching a
declared parameter sets that parameter, any other name is collected into
`json_dump_kws` (Python `**` semantics). -/
def bindKw (a : Args) (k : String) (v : PyVal) : Args :=
  if k = "input_file" then { a with input := (v.asStr).getD a.input }
  else if k = "output_file" then { a with output := v.asStr }
  else if k = "tshark" then { a with tshark := v.asTshark }
  else if k = "socket_operations_file" then { a with socket_operations_file := v.asStr }
  else if k = "cryptography_operations_file" then { a with cryptography_operations_file := v.asStr }
  else if k = "overwrite" then { a with overwrite := v.asBool }
  else { a with json_dump_kws := a.json_dump_kws ++ [(k, v)] }

/-- Bind a full call of `pcapng_to_har`: two positional arguments, then the
keyword arguments in order. -/
def bindCall (i : String) (o : Option String) (kws : List (String × PyVal)) : Args :=
  kws.foldl (fun a kv => bindKw a kv.1 kv.2) { input := i, output := o }

/-- The parsed command-line arguments of `cli`. -/
structure CliArgs where
  i : String
  o : Option String := none
  tsharkPath : String := "/usr/bin/tshark"
  force : Bool := false
  socket_operations_file : Option String := none
  cryptography_operations_file : Option String := none
deriving DecidableEq, Repr

/-- Wrap an optional CLI string as the keyword value `cli` passes on. -/
def optVal : Option String → PyVal
  | none => .vNone
  | some s => .vStr s

/-- The keyword arguments `cli` passes to `pcapng_to_har` (source lines
62-69); note the keyword name `cryptographic_operations_file`. -/
def cliKwargs (c : CliArgs) : List (String × PyVal) :=
  [("tshark", .vTshark ⟨c.tsharkPath⟩),
   ("overwrite", .vBool c.force),
   ("socket_operations_file", optVal c.socket_operations_file),
   ("cryptographic_operations_file", optVal c.cryptography_operations_file)]

/-- The error message logged when the socket-operations feed is invalid
(source line 118). -/
def sfSkipMsg : String := "Invalid stacktrace data input file, skip enrichment"

/-- The error message logged when the cryptography feed is invalid (source
line 128). -/
def cfSkipMsg : String := "Invalid decryption data input file, skip enrichment"

/-- The output path: the second argument if given, else the input path with
its suffix replaced by `.har` (source lines 87-90). -/
def outPath (a : Args) : String :=
  match a.output with
  | some o => o
  | none => withSuffixHarS a.input

/-- The feed-path check of source lines 111-112 and 121-122: `None` and the
empty string are falsy, and the path must be a regular file (checked on the
filesystem as it stands after the base HAR was saved); returns the file's
content when the check passes. -/
def feedFile (fs : FS) : Option String → Option String
  | none => none
  | some p =>
    if p = "" then none
    else
      match FS.stat fs p with
      | .regular c => some c
      | _ => none

/-- The enrichment stage (source lines 109-128): each pass runs when its
feed file is valid, sets the `enriched` flag, and logs at info level;
otherwise the pass is skipped and an error-level message is logged. -/
def enrichStage (sf cf : Option String) (fs1 : FS) (har0 : HarDoc) :
    HarDoc × Bool × List Event :=
  let s :=
    match feedFile fs1 sf with
    | some c => (stacktraceEnrichDoc (parseSocketOps c) har0, true,
                 [Event.enrichCall .stacktrace, Event.logE .info "stacktrace enriched"])
    | none => (har0, false, [Event.logE .error sfSkipMsg])
  let t :=
    match feedFile fs1 cf with
    | some c => (decryptEnrichDoc (parseCryptoOps c) s.1, true,
                 [Event.enrichCall .decryption, Event.logE .info "decryption enriched"])
    | none => (s.1, false, [Event.logE .error cfSkipMsg])
  (t.1, s.2.1 || t.2.1, s.2.2 ++ t.2.2)

/-- The pipeline from a successful load onward (source lines 103-135):
`save_har` persists the unenriched document (raising `TypeError` when
`json_dump_kws` holds a key `json.dump` rejects), the enrichment stage runs,
and if any pass ran the document is re-serialized by opening the output path
in write mode (truncating it) and dumping into it. -/
def afterLoad (a : Args) (fs0 : FS) (har0 : HarDoc) : RunOutcome :=
  let output := outPath a
  let kwKeys := a.json_dump_kws.map Prod.fst
  if hasStray kwKeys then
    ⟨fs0, [.jsonDump output kwKeys], some (.typeError "unexpected keyword argument"),
     none, none⟩
  else
    let fs1 := FS.write fs0 output (serialize har0)
    let ev1 : List Event := [.jsonDump output kwKeys, .fsWrite output (serialize har0)]
    let es := enrichStage a.socket_operations_file a.cryptography_operations_file fs1 har0
    if es.2.1 then
      ⟨FS.write (FS.write fs1 output "") output (serialize es.1),
       ev1 ++ es.2.2 ++
         [.fsTruncate output, .jsonDump output kwKeys,
          .fsWrite output (serialize es.1), .logE .info "saved"],
       none, some har0, some es.1⟩
    else
      ⟨fs1, ev1 ++ es.2.2 ++ [.logE .info "saved"], none, some har0, some es.1⟩

/-- The embedded `pcapng_to_har` (source lines 74-135): resolve the output
path, assert it differs from the input, fail fast when it exists and
overwrite is off, load and parse the capture, then hand over to
`afterLoad`. -/
def pcapng_to_har (a : Args) (fs0 : FS) : RunOutcome :=
  if outPath a = a.input then
    ⟨fs0, [], some (.assertionError a.input), none, none⟩
  else if FS.stat fs0 (outPath a) ≠ .absent ∧ a.overwrite = false then
    ⟨fs0, [], some (.fileExistsError (outPath a)), none, none⟩
  else
    match tsharkLoad fs0 a.input with
    | .error e => ⟨fs0, [], some e, none, none⟩
    | .ok har0 => afterLoad a fs0 har0

/-- The embedded `cli` (source lines 60-71): bind the call with the
keywords of `cliKwargs`, run the conversion, and wrap any escaping
exception in a `RuntimeError` carrying the input path, with the original
exception as its cause. -/
def cli (c : CliArgs) (fs0 : FS) : RunOutcome :=
  let r := pcapng_to_har (bindCall c.i c.o (cliKwargs c)) fs0
  match r.err with
  | none => r
  | some e => { r with err := some (.runtimeError c.i e) }

/-- Whether an event is an enrichment-pass execution. -/
def isEnrichEvent : Event → Bool
  | .enrichCall _ => true
  | _ => false

/-- Whether an event is the execution of the decryption pass. -/
def isDecryptCall : Event → Bool
  | .enrichCall .decryption => true
  | _ => false

/-- Whether the trace holds a warning-level log message. -/
def hasWarning (l : List Event) : Bool :=
  l.any (fun ev =>
    match ev with
    | .logE .warning _ => true
    | _ => false)

/-- The path a write-class event touches, if it is one. -/
def eventWritePath : Event → Option String
  | .fsWrite p _ => some p
  | .fsTruncate p => some p
  | _ => none

/-- Whether the trace writes or truncates any path other than `out`. -/
def writesOutside (out : String) (l : List Event) : Bool :=
  l.any (fun ev =>
    match eventWritePath ev with
    | some p => !(p == out)
    | none => false)

/-- Whether the trace holds a `json.dump` call whose keywords miss `key`. -/
def dumpsMissingKey (key : String) (l : List Event) : Bool :=
  l.any (fun ev =>
    match ev with
    | .jsonDump _ ks => !(ks.contains key)
    | _ => false)

/-- The pair of body contents of an entry, the data C7 compares. -/
def contentPair (e : HarEntry) : Content × Content :=
  (e.requestContent, e.responseContent)

/-! Field-preservation lemmas for the two enrichment passes. -/

theorem setStacktrace_requestContent (e : HarEntry) (f : List String) :
    (setStacktrace e f).requestContent = e.requestContent := rfl

theorem st_startTime (s : List SocketOpRecord) (e : HarEntry) :
    (stacktraceEnrichEntry s e).startTime = e.startTime := by
  unfold stacktraceEnrichEntry
  rcases stacktraceMatch s e with _ | r <;> rfl

theorem st_serverEndpoint (s : List SocketOpRecord) (e : HarEntry) :
    (stacktraceEnrichEntry s e).serverEndpoint = e.serverEndpoint := by
  unfold stacktraceEnrichEntry
  rcases stacktraceMatch s e with _ | r <;> rfl

theorem st_requestContent (s : List SocketOpRecord) (e : HarEntry) :
    (stacktraceEnrichEntry s e).requestContent = e.requestContent := by
  unfold stacktraceEnrichEntry
  rcases stacktraceMatch s e with _ | r <;> rfl

theorem st_responseContent (s : List SocketOpRecord) (e : HarEntry) :
    (stacktraceEnrichEntry s e).responseContent = e.responseContent := by
  unfold stacktraceEnrichEntry
  rcases stacktraceMatch s e with _ | r <;> rfl

theorem dreq_startTime (c : List CryptoOpRecord) (e : HarEntry) :
    (decryptRequestPart c e).startTime = e.startTime := by
  unfold decryptRequestPart
  rcases cryptoMatch c .request e.requestContent with _ | r <;> rfl

theorem dreq_serverEndpoint (c : List CryptoOpRecord) (e : HarEntry) :
    (decryptRequestPart c e).serverEndpoint = e.serverEndpoint := by
  unfold decryptRequestPart
  rcases cryptoMatch c .request e.requestContent with _ | r <;> rfl

theorem dreq_responseContent (c : List CryptoOpRecord) (e : HarEntry) :
    (decryptRequestPart c e).responseContent = e.responseContent := by
  unfold decryptRequestPart
  rcases cryptoMatch c .request e.requestContent with _ | r <;> rfl

theorem dresp_startTime (c : List CryptoOpRecord) (e : HarEntry) :
    (decryptResponsePart c e).startTime = e.startTime := by
  unfold decryptResponsePart
  rcases cryptoMatch c .response e.responseContent with _ | r <;> rfl

theorem dresp_serverEndpoint (c : List CryptoOpRecord) (e : HarEntry) :
    (decryptResponsePart c e).serverEndpoint = e.serverEndpoint := by
  unfold decryptResponsePart
  rcases cryptoMatch c .response e.responseContent with _ | r <;> rfl

theorem dresp_requestContent (c : List CryptoOpRecord) (e : HarEntry) :
    (decryptResponsePart c e).requestContent = e.requestContent := by
  unfold decryptResponsePart
  rcases cryptoMatch c .response e.responseContent with _ | r <;> rfl

theorem de_startTime (c : List CryptoOpRecord) (e : HarEntry) :
    (decryptEnrichEntry c e).startTime = e.startTime := by
  unfold decryptEnrichEntry
  rw [dresp_startTime, dreq_startTime]

theorem de_serverEndpoint (c : List CryptoOpRecord) (e : HarEntry) :
    (decryptEnrichEntry c e).serverEndpoint = e.serverEndpoint := by
  unfold decryptEnrichEntry
  rw [dresp_serverEndpoint, dreq_serverEndpoint]

/-- The §4.4 join consults only the entry's endpoint and start time. -/
theorem stacktraceMatch_congr (s : List SocketOpRecord) (e e' : HarEntry)
    (h1 : e'.startTime = e.startTime) (h2 : e'.serverEndpoint = e.serverEndpoint) :
    stacktraceMatch s e' = stacktraceMatch s e := by
  have hpred : socketCandidate e' = socketCandidate e := by
    funext r
    unfold socketCandidate
    rw [h1, h2]
  unfold stacktraceMatch
  rw [hpred]

/-! Unfolding equations and commutation of the two enrichment passes. -/

theorem stEntry_none {s : List SocketOpRecord} {e : HarEntry}
    (h : stacktraceMatch s e = none) : stacktraceEnrichEntry s e = e := by
  unfold stacktraceEnrichEntry
  rw [h]

theorem stEntry_some {s : List SocketOpRecord} {e : HarEntry} {r : SocketOpRecord}
    (h : stacktraceMatch s e = some r) :
    stacktraceEnrichEntry s e = setStacktrace e r.frames := by
  unfold stacktraceEnrichEntry
  rw [h]

theorem dreqPart_none {c : List CryptoOpRecord} {e : HarEntry}
    (h : cryptoMatch c .request e.requestContent = none) : decryptRequestPart c e = e := by
  unfold decryptRequestPart
  rw [h]

theorem dreqPart_some {c : List CryptoOpRecord} {e : HarEntry} {r : CryptoOpRecord}
    (h : cryptoMatch c .request e.requestContent = some r) :
    decryptRequestPart c e = setDecryptedRequest e r.plaintext := by
  unfold decryptRequestPart
  rw [h]

theorem drespPart_none {c : List CryptoOpRecord} {e : HarEntry}
    (h : cryptoMatch c .response e.responseContent = none) : decryptResponsePart c e = e := by
  unfold decryptResponsePart
  rw [h]

theorem drespPart_some {c : List CryptoOpRecord} {e : HarEntry} {r : CryptoOpRecord}
    (h : cryptoMatch c .response e.responseContent = some r) :
    decryptResponsePart c e = setDecryptedResponse e r.plaintext := by
  unfold decryptResponsePart
  rw [h]

theorem stacktraceMatch_setDreq (s : List SocketOpRecord) (e : HarEntry) (pt : String) :
    stacktraceMatch s (setDecryptedRequest e pt) = stacktraceMatch s e :=
  stacktraceMatch_congr s e (setDecryptedRequest e pt) rfl rfl

theorem stacktraceMatch_setDresp (s : List SocketOpRecord) (e : HarEntry) (pt : String) :
    stacktraceMatch s (setDecryptedResponse e pt) = stacktraceMatch s e :=
  stacktraceMatch_congr s e (setDecryptedResponse e pt) rfl rfl

/-- The stacktrace pass and the request half of the decryption pass commute:
they read and write disjoint fields of the entry. -/
theorem st_dreq_comm (s : List SocketOpRecord) (c : List CryptoOpRecord) (e : HarEntry) :
    stacktraceEnrichEntry s (decryptRequestPart c e)
      = decryptRequestPart c (stacktraceEnrichEntry s e) := by
  rcases hM : stacktraceMatch s e with _ | r <;>
    rcases hQ : cryptoMatch c .request e.requestContent with _ | q
  · rw [dreqPart_none hQ, stEntry_none hM, dreqPart_none hQ]
  · rw [dreqPart_some hQ, stEntry_none hM, dreqPart_some hQ,
        stEntry_none (by rw [stacktraceMatch_setDreq, hM])]
  · rw [dreqPart_none hQ, stEntry_some hM,
        dreqPart_none (by rw [setStacktrace_requestContent, hQ])]
  · rw [dreqPart_some hQ, stEntry_some hM,
        stEntry_some (by rw [stacktraceMatch_setDreq, hM]),
        dreqPart_some (by rw [setStacktrace_requestContent, hQ])]
    rfl

theorem setStacktrace_responseContent (e : HarEntry) (f : List String) :
    (setStacktrace e f).responseContent = e.responseContent := rfl

/-- The stacktrace pass and the response half of the decryption pass
commute. -/
theorem st_dresp_comm (s : List SocketOpRecord) (c : List CryptoOpRecord) (e : HarEntry) :
    stacktraceEnrichEntry s (decryptResponsePart c e)
      = decryptResponsePart c (stacktraceEnrichEntry s e) := by
  rcases hM : stacktraceMatch s e with _ | r <;>
    rcases hQ : cryptoMatch c .response e.responseContent with _ | q
  · rw [drespPart_none hQ, stEntry_none hM, drespPart_none hQ]
  · rw [drespPart_some hQ, stEntry_none hM, drespPart_some hQ,
        stEntry_none (by rw [stacktraceMatch_setDresp, hM])]
  · rw [drespPart_none hQ, stEntry_some hM,
        drespPart_none (by rw [setStacktrace_responseContent, hQ])]
  · rw [drespPart_some hQ, stEntry_some hM,
        stEntry_some (by rw [stacktraceMatch_setDresp, hM]),
        drespPart_some (by rw [setStacktrace_responseContent, hQ])]
    rfl

/-- The two passes commute on a single entry. -/
theorem enrich_entry_comm (s : List SocketOpRecord) (c : List CryptoOpRecord) (e : HarEntry) :
    decryptEnrichEntry c (stacktraceEnrichEntry s e)
      = stacktraceEnrichEntry s (decryptEnrichEntry c e) := by
  unfold decryptEnrichEntry
  rw [← st_dreq_comm, ← st_dresp_comm]

/-- C8: for every HAR document and every pair of feeds, the Stacktrace pass
and the Content Decryption pass yield the same final document in either
order. -/
theorem c8_enrichment_passes_commute (srecs : List SocketOpRecord)
    (crecs : List CryptoOpRecord) (d : HarDoc) :
    decryptEnrichDoc crecs (stacktraceEnrichDoc srecs d)
      = stacktraceEnrichDoc srecs (decryptEnrichDoc crecs d) := by
  unfold decryptEnrichDoc stacktraceEnrichDoc
  simp only [List.map_map]
  have h : decryptEnrichEntry crecs ∘ stacktraceEnrichEntry srecs
      = stacktraceEnrichEntry srecs ∘ decryptEnrichEntry crecs := by
    funext e
    exact enrich_entry_comm srecs crecs e
  rw [h]

/-- The stacktrace pass touches only the extension area: the body contents
of every entry are unchanged. -/
theorem st_doc_contents (s : List SocketOpRecord) (d : HarDoc) :
    (stacktraceEnrichDoc s d).entries.map contentPair = d.entries.map contentPair := by
  unfold stacktraceEnrichDoc
  have h : contentPair ∘ stacktraceEnrichEntry s = contentPair := by
    funext e
    show contentPair (stacktraceEnrichEntry s e) = contentPair e
    unfold contentPair
    rw [st_requestContent, st_responseContent]
  simp only [List.map_map]
  rw [h]

/-! Pipeline-level lemmas. -/

theorem cli_events (c : CliArgs) (fs0 : FS) :
    (cli c fs0).events = (pcapng_to_har (bindCall c.i c.o (cliKwargs c)) fs0).events := by
  unfold cli
  rcases h : (pcapng_to_har (bindCall c.i c.o (cliKwargs c)) fs0).err with _ | e <;> simp [h]

/-- C10: for every CLI invocation, an exception escaping the underlying
conversion is re-raised by `cli` as a `RuntimeError` whose argument is the
input path and whose cause is the original exception; no exception leaves
`cli` unwrapped (and a successful conversion raises nothing). -/
theorem c10_cli_wraps_every_exception (c : CliArgs) (fs0 : FS) :
    (cli c fs0).err
      = ((pcapng_to_har (bindCall c.i c.o (cliKwargs c)) fs0).err).map
          (fun e => PyErr.runtimeError c.i e) := by
  unfold cli
  rcases h : (pcapng_to_har (bindCall c.i c.o (cliKwargs c)) fs0).err with _ | e <;> simp [h]

/-- C2: with the output path distinct from the input path, (i) when the
output already exists and overwrite is off, the run raises `FileExistsError`
with the filesystem untouched and no events, before any processing; (ii)
when loading or parsing the capture fails, the run raises that error with
the filesystem untouched and no events, so the output file is neither
created nor modified. -/
theorem c2_fatal_errors_abort_before_output (a : Args) (fs0 : FS)
    (hne : outPath a ≠ a.input) :
    (FS.stat fs0 (outPath a) ≠ .absent → a.overwrite = false →
      pcapng_to_har a fs0
        = ⟨fs0, [], some (.fileExistsError (outPath a)), none, none⟩) ∧
    (∀ e : PyErr, tsharkLoad fs0 a.input = .error e →
      (FS.stat fs0 (outPath a) = .absent ∨ a.overwrite = true) →
      pcapng_to_har a fs0 = ⟨fs0, [], some e, none, none⟩) := by
  constructor
  · intro h1 h2
    unfold pcapng_to_har
    rw [if_neg hne, if_pos ⟨h1, h2⟩]
  · intro e he hov
    have hno : ¬(FS.stat fs0 (outPath a) ≠ .absent ∧ a.overwrite = false) := by
      rcases hov with h | h
      · exact fun hc => hc.1 h
      · intro hc
        rw [h] at hc
        exact Bool.noConfusion hc.2
    unfold pcapng_to_har
    rw [if_neg hne, if_neg hno, he]

/-- A run whose `harBase` observable is set has passed the assertion and the
overwrite gate, loaded exactly that document, carried no stray dump keyword,
and its outcome is `afterLoad` of that document. -/
theorem run_reached (a : Args) (fs0 : FS) (h0 : HarDoc)
    (hb : (pcapng_to_har a fs0).harBase = some h0) :
    tsharkLoad fs0 a.input = .ok h0 ∧
    hasStray (a.json_dump_kws.map Prod.fst) = false ∧
    pcapng_to_har a fs0 = afterLoad a fs0 h0 := by
  unfold pcapng_to_har at hb ⊢
  split at hb
  · exact absurd hb (by simp)
  · rename_i hne1
    split at hb
    · exact absurd hb (by simp)
    · rename_i hex1
      split at hb
      · exact absurd hb (by simp)
      · rename_i har0 heq
        simp only [afterLoad] at hb
        split at hb
        · exact absurd hb (by simp)
        · rename_i hstray
          have hstray' : hasStray (a.json_dump_kws.map Prod.fst) = false := by
            simpa using hstray
          have h00 : har0 = h0 := by
            split at hb <;> simpa using hb
          subst h00
          refine ⟨heq, hstray', ?_⟩
          rw [if_neg hne1, if_neg hex1]

/-! Characterization of the enrichment stage. -/

theorem enrichStage_flag (sf cf : Option String) (fs1 : FS) (har0 : HarDoc) :
    (enrichStage sf cf fs1 har0).2.1
      = ((feedFile fs1 sf).isSome || (feedFile fs1 cf).isSome) := by
  rcases hsf : feedFile fs1 sf with _ | c <;> rcases hcf : feedFile fs1 cf with _ | c' <;>
    simp [enrichStage, hsf, hcf]

theorem enrichStage_no_warning (sf cf : Option String) (fs1 : FS) (har0 : HarDoc) :
    hasWarning (enrichStage sf cf fs1 har0).2.2 = false := by
  rcases hsf : feedFile fs1 sf with _ | c <;> rcases hcf : feedFile fs1 cf with _ | c' <;>
    simp [enrichStage, hsf, hcf, hasWarning]

theorem enrichStage_no_truncate (sf cf : Option String) (fs1 : FS) (har0 : HarDoc)
    (q : String) : Event.fsTruncate q ∉ (enrichStage sf cf fs1 har0).2.2 := by
  rcases hsf : feedFile fs1 sf with _ | c <;> rcases hcf : feedFile fs1 cf with _ | c' <;>
    simp [enrichStage, hsf, hcf]

theorem enrichStage_no_writes (sf cf : Option String) (fs1 : FS) (har0 : HarDoc) :
    ∀ ev ∈ (enrichStage sf cf fs1 har0).2.2, eventWritePath ev = none := by
  intro ev h
  rcases hsf : feedFile fs1 sf with _ | c <;> rcases hcf : feedFile fs1 cf with _ | c' <;>
    simp [enrichStage, hsf, hcf] at h <;>
    rcases h with h | h <;> first
      | (subst h; rfl)
      | (rcases h with h | h <;> first
          | (subst h; rfl)
          | (rcases h with h | h <;> subst h <;> rfl))

theorem enrichStage_skip_logs (sf cf : Option String) (fs1 : FS) (har0 : HarDoc) :
    (feedFile fs1 sf = none →
      Event.logE .error sfSkipMsg ∈ (enrichStage sf cf fs1 har0).2.2) ∧
    (feedFile fs1 cf = none →
      Event.logE .error cfSkipMsg ∈ (enrichStage sf cf fs1 har0).2.2) := by
  constructor <;> intro h <;>
    rcases hsf : feedFile fs1 sf with _ | c <;>
    rcases hcf : feedFile fs1 cf with _ | c' <;>
    simp_all [enrichStage]

theorem enrichStage_doc_contents_no_crypto (sf cf : Option String) (fs1 : FS)
    (har0 : HarDoc) (hcf : feedFile fs1 cf = none) :
    (enrichStage sf cf fs1 har0).1.entries.map contentPair
      = har0.entries.map contentPair := by
  rcases hsf : feedFile fs1 sf with _ | c <;>
    simp [enrichStage, hsf, hcf, st_doc_contents]

/-! Properties of the pipeline tail. -/

theorem afterLoad_write_before_enrich (a : Args) (fs0 : FS) (h0 : HarDoc)
    (hstray : hasStray (a.json_dump_kws.map Prod.fst) = false) :
    Event.fsWrite (outPath a) (serialize h0) ∈
      ((afterLoad a fs0 h0).events.takeWhile (fun ev => !(isEnrichEvent ev))) := by
  simp only [afterLoad, hstray]
  rw [if_neg Bool.false_ne_true]
  split <;> simp [List.takeWhile, isEnrichEvent]

/-- C6: whenever a run reaches the enrichment stage, the unenriched HAR
document was already written to the output file strictly before any
enrichment pass ran (the write event lies before the first enrichment event
of the trace). -/
theorem c6_base_har_persisted_before_enrichment (a : Args) (fs0 : FS) (h0 : HarDoc)
    (hb : (pcapng_to_har a fs0).harBase = some h0) :
    Event.fsWrite (outPath a) (serialize h0) ∈
      ((pcapng_to_har a fs0).events.takeWhile (fun ev => !(isEnrichEvent ev))) := by
  obtain ⟨-, hstray, heq⟩ := run_reached a fs0 h0 hb
  rw [heq]
  exact afterLoad_write_before_enrich a fs0 h0 hstray

theorem afterLoad_rewrite_iff (a : Args) (fs0 : FS) (h0 : HarDoc)
    (hstray : hasStray (a.json_dump_kws.map Prod.fst) = false) :
    (Event.fsTruncate (outPath a) ∈ (afterLoad a fs0 h0).events
      ↔ ((feedFile (FS.write fs0 (outPath a) (serialize h0)) a.socket_operations_file).isSome
          ∨ (feedFile (FS.write fs0 (outPath a) (serialize h0))
              a.cryptography_operations_file).isSome)) ∧
    ((feedFile (FS.write fs0 (outPath a) (serialize h0)) a.socket_operations_file = none ∧
      feedFile (FS.write fs0 (outPath a) (serialize h0)) a.cryptography_operations_file = none) →
      (afterLoad a fs0 h0).fs = FS.write fs0 (outPath a) (serialize h0)) := by
  simp only [afterLoad, hstray]
  rcases hsf : feedFile (FS.write fs0 (outPath a) (serialize h0)) a.socket_operations_file
      with _ | c <;>
    rcases hcf : feedFile (FS.write fs0 (outPath a) (serialize h0))
        a.cryptography_operations_file with _ | c' <;>
    simp [enrichStage, hsf, hcf]

/-- C3 (amended): once the enrichment stage is reached, the document is
re-serialized (the output file truncated and re-written) exactly when at
least one enrichment pass ran, i.e. when its feed path was supplied and is a
regular file — regardless of whether the pass changed the document; when
neither pass ran, the filesystem still holds exactly the unenriched HAR
written by `save_har`. -/
theorem c3_amended_rewrite_iff_pass_ran (a : Args) (fs0 : FS) (h0 : HarDoc)
    (hb : (pcapng_to_har a fs0).harBase = some h0) :
    (Event.fsTruncate (outPath a) ∈ (pcapng_to_har a fs0).events
      ↔ ((feedFile (FS.write fs0 (outPath a) (serialize h0)) a.socket_operations_file).isSome
          ∨ (feedFile (FS.write fs0 (outPath a) (serialize h0))
              a.cryptography_operations_file).isSome)) ∧
    ((feedFile (FS.write fs0 (outPath a) (serialize h0)) a.socket_operations_file = none ∧
      feedFile (FS.write fs0 (outPath a) (serialize h0)) a.cryptography_operations_file = none) →
      (pcapng_to_har a fs0).fs = FS.write fs0 (outPath a) (serialize h0)) := by
  obtain ⟨-, hstray, heq⟩ := run_reached a fs0 h0 hb
  rw [heq]
  exact afterLoad_rewrite_iff a fs0 h0 hstray

theorem afterLoad_c4 (a : Args) (fs0 : FS) (h0 : HarDoc)
    (hstray : hasStray (a.json_dump_kws.map Prod.fst) = false) :
    (afterLoad a fs0 h0).err = none ∧
    hasWarning (afterLoad a fs0 h0).events = false ∧
    (feedFile (FS.write fs0 (outPath a) (serialize h0)) a.socket_operations_file = none →
      Event.logE .error sfSkipMsg ∈ (afterLoad a fs0 h0).events) ∧
    (feedFile (FS.write fs0 (outPath a) (serialize h0)) a.cryptography_operations_file = none →
      Event.logE .error cfSkipMsg ∈ (afterLoad a fs0 h0).events) := by
  simp only [afterLoad, hstray]
  rcases hsf : feedFile (FS.write fs0 (outPath a) (serialize h0)) a.socket_operations_file
      with _ | c <;>
    rcases hcf : feedFile (FS.write fs0 (outPath a) (serialize h0))
        a.cryptography_operations_file with _ | c' <;>
    simp [enrichStage, hsf, hcf, hasWarning]

/-- C4 (amended): when an enrichment feed file is missing, empty-named or
not a regular file, that pass is skipped without raising any exception (the
run reaching the enrichment stage completes with no error), and the absence
is reported by a log message at error severity — not by a warning: the
trace never holds a warning-level message. -/
theorem c4_amended_skip_logged_at_error_level (a : Args) (fs0 : FS) (h0 : HarDoc)
    (hb : (pcapng_to_har a fs0).harBase = some h0) :
    (pcapng_to_har a fs0).err = none ∧
    hasWarning (pcapng_to_har a fs0).events = false ∧
    (feedFile (FS.write fs0 (outPath a) (serialize h0)) a.socket_operations_file = none →
      Event.logE .error sfSkipMsg ∈ (pcapng_to_har a fs0).events) ∧
    (feedFile (FS.write fs0 (outPath a) (serialize h0)) a.cryptography_operations_file = none →
      Event.logE .error cfSkipMsg ∈ (pcapng_to_har a fs0).events) := by
  obtain ⟨-, hstray, heq⟩ := run_reached a fs0 h0 hb
  rw [heq]
  exact afterLoad_c4 a fs0 h0 hstray

theorem afterLoad_c7 (a : Args) (fs0 : FS) (h0 hF : HarDoc)
    (hstray : hasStray (a.json_dump_kws.map Prod.fst) = false)
    (hcf : feedFile (FS.write fs0 (outPath a) (serialize h0))
        a.cryptography_operations_file = none)
    (hf : (afterLoad a fs0 h0).harFinal = some hF) :
    hF.entries.map contentPair = h0.entries.map contentPair := by
  have hAL : (afterLoad a fs0 h0).harFinal
      = some (enrichStage a.socket_operations_file a.cryptography_operations_file
          (FS.write fs0 (outPath a) (serialize h0)) h0).1 := by
    simp only [afterLoad, hstray]
    rw [if_neg Bool.false_ne_true]
    split <;> rfl
  rw [hAL] at hf
  have hes : hF = (enrichStage a.socket_operations_file a.cryptography_operations_file
      (FS.write fs0 (outPath a) (serialize h0)) h0).1 := by
    exact (Option.some.injEq _ _ ▸ hf).symm
  rw [hes]
  exact enrichStage_doc_contents_no_crypto _ _ _ _ hcf

/-- C7: when the cryptography feed is omitted or is not a regular file (as
checked at the time the pass would run), the document at the end of the
enrichment stage carries, entry by entry, body contents byte-identical to
the pre-enrichment HAR document. -/
theorem c7_no_crypto_feed_contents_unchanged (a : Args) (fs0 : FS) (h0 hF : HarDoc)
    (hb : (pcapng_to_har a fs0).harBase = some h0)
    (hcf : feedFile (FS.write fs0 (outPath a) (serialize h0))
        a.cryptography_operations_file = none)
    (hf : (pcapng_to_har a fs0).harFinal = some hF) :
    hF.entries.map contentPair = h0.entries.map contentPair := by
  obtain ⟨-, hstray, heq⟩ := run_reached a fs0 h0 hb
  rw [heq] at hf
  exact afterLoad_c7 a fs0 h0 hF hstray hcf hf

/-- C5 (amended): no temporary location is ever used: every write and every
truncation event of any run targets the output path itself — the enriched
re-serialization truncates the output file in place before dumping into it,
so there is no atomic temp-file publish step. -/
theorem c5_amended_all_writes_target_output_path (a : Args) (fs0 : FS) :
    writesOutside (outPath a) (pcapng_to_har a fs0).events = false := by
  unfold pcapng_to_har
  split
  · rfl
  · split
    · rfl
    · split
      · rfl
      · rename_i har0 heq
        simp only [afterLoad]
        split
        · rfl
        · rcases hsf : feedFile (FS.write fs0 (outPath a) (serialize har0))
              a.socket_operations_file with _ | c <;>
            rcases hcf : feedFile (FS.write fs0 (outPath a) (serialize har0))
                a.cryptography_operations_file with _ | c' <;>
            simp [enrichStage, hsf, hcf, writesOutside, eventWritePath]

/-- A run whose keyword dictionary holds a stray key dies in `save_har` with
a `TypeError` no later than the first `json.dump` call, so its trace is
empty or that single dump call. -/
theorem stray_run (a : Args) (fs0 : FS)
    (h : hasStray (a.json_dump_kws.map Prod.fst) = true) :
    (pcapng_to_har a fs0).events = [] ∨
    (pcapng_to_har a fs0).events
      = [Event.jsonDump (outPath a) (a.json_dump_kws.map Prod.fst)] := by
  unfold pcapng_to_har
  split
  · exact Or.inl rfl
  · split
    · exact Or.inl rfl
    · split
      · exact Or.inl rfl
      · simp [afterLoad, h]

/-- C1: for every CLI invocation with a cryptography operations file
supplied, the binding of the call that `cli` makes leaves the declared
`cryptography_operations_file` parameter at `None` and absorbs the
misspelled keyword `cryptographic_operations_file` into `json_dump_kws`;
consequently the decryption pass never runs in the CLI run, and every
`json.dump` call of the run receives the stray keyword. -/
theorem c1_cli_keyword_mismatch (c : CliArgs) (p : String) (fs0 : FS)
    (h : c.cryptography_operations_file = some p) :
    (bindCall c.i c.o (cliKwargs c)).cryptography_operations_file = none ∧
    (bindCall c.i c.o (cliKwargs c)).json_dump_kws
      = [("cryptographic_operations_file", PyVal.vStr p)] ∧
    (cli c fs0).events.any isDecryptCall = false ∧
    dumpsMissingKey "cryptographic_operations_file" (cli c fs0).events = false := by
  have hb1 : (bindCall c.i c.o (cliKwargs c)).cryptography_operations_file = none := by
    simp [bindCall, cliKwargs, bindKw, optVal, h]
  have hb2 : (bindCall c.i c.o (cliKwargs c)).json_dump_kws
      = [("cryptographic_operations_file", PyVal.vStr p)] := by
    simp [bindCall, cliKwargs, bindKw, optVal, h]
  have hstray : hasStray ((bindCall c.i c.o (cliKwargs c)).json_dump_kws.map Prod.fst)
      = true := by
    rw [hb2]
    rfl
  have hev := stray_run (bindCall c.i c.o (cliKwargs c)) fs0 hstray
  have hev' := cli_events c fs0
  refine ⟨hb1, hb2, ?_, ?_⟩
  · rcases hev with h1 | h1 <;> rw [hev', h1] <;> rfl
  · rcases hev with h1 | h1
    · rw [hev', h1]
      rfl
    · rw [hev', h1, hb2]
      rfl

/-! Pathlib suffix facts used by C9. -/

theorem splitPath_append (l : List Char) : (splitPath l).1 ++ (splitPath l).2 = l := by
  induction l with
  | nil => rfl
  | cons c cs ih =>
    simp only [splitPath]
    split
    · split <;> rfl
    · rw [List.cons_append, ih]

theorem pathSuffixNameL_none {n : List Char} (h : suffixStart n = none) :
    pathSuffixNameL n = [] := by
  unfold pathSuffixNameL
  rw [h]

theorem pathSuffixNameL_some {n : List Char} {i : Nat} (h : suffixStart n = some i) :
    pathSuffixNameL n = n.drop i := by
  unfold pathSuffixNameL
  rw [h]

theorem withSuffixNameL_none {n suf : List Char} (h : suffixStart n = none) :
    withSuffixNameL n suf = n ++ suf := by
  unfold withSuffixNameL
  rw [h]

theorem withSuffixNameL_some {n suf : List Char} {i : Nat} (h : suffixStart n = some i) :
    withSuffixNameL n suf = n.take i ++ suf := by
  unfold withSuffixNameL
  rw [h]

theorem withSuffixNameL_eq_self_iff (n suf : List Char) (hsuf : suf ≠ []) :
    withSuffixNameL n suf = n ↔ pathSuffixNameL n = suf := by
  rcases hs : suffixStart n with _ | i
  · rw [withSuffixNameL_none hs, pathSuffixNameL_none hs]
    constructor
    · intro h
      have hlen := congrArg List.length h
      simp at hlen
      exact absurd hlen hsuf
    · intro h
      exact absurd h.symm hsuf
  · rw [withSuffixNameL_some hs, pathSuffixNameL_some hs]
    constructor
    · intro h
      have h2 : n.take i ++ suf = n.take i ++ n.drop i := by
        conv_rhs => rw [List.take_append_drop]
        exact h
      exact (List.append_cancel_left h2).symm
    · intro h
      rw [← h]
      exact List.take_append_drop i n

theorem withSuffixHarS_eq_self_iff (s : String) :
    withSuffixHarS s = s ↔ pathSuffixS s = ".har" := by
  obtain ⟨d⟩ := s
  have hd := splitPath_append d
  have hn := withSuffixNameL_eq_self_iff (splitPath d).2 ".har".data (by decide)
  constructor
  · intro h
    have h' : (splitPath d).1 ++ withSuffixNameL (splitPath d).2 ".har".data
        = (splitPath d).1 ++ (splitPath d).2 := by
      rw [hd]
      exact congrArg String.data h
    have := hn.1 (List.append_cancel_left h')
    exact String.ext this
  · intro h
    have h' : pathSuffixNameL (splitPath d).2 = ".har".data := congrArg String.data h
    apply String.ext
    show (splitPath d).1 ++ withSuffixNameL (splitPath d).2 ".har".data = d
    rw [hn.2 h', hd]

theorem tsharkLoad_error_shape (fs : FS) (input : String) (e : PyErr)
    (h : tsharkLoad fs input = .error e) :
    e = .fileNotFoundError input ∨ e = .decodeError input := by
  unfold tsharkLoad at h
  split at h
  · split at h
    · exact absurd h (by simp)
    · simp at h
      exact Or.inr h.symm
  · simp at h
    exact Or.inl h.symm

theorem afterLoad_err (a : Args) (fs0 : FS) (h0 : HarDoc) :
    (afterLoad a fs0 h0).err = none ∨
    (afterLoad a fs0 h0).err = some (.typeError "unexpected keyword argument") := by
  simp only [afterLoad]
  split
  · exact Or.inr rfl
  · split <;> exact Or.inl rfl

/-- C9 (amended): with no explicit output file, the output path is the input
path with its pathlib suffix replaced by `.har` (appended when the name has
no suffix), and the run raises `AssertionError` — with nothing read, written
or logged — exactly when the pathlib suffix of the input is `.har`, i.e.
when the input name ends in `.har` with at least one character before that
dot.  A name such as `.har` alone has no pathlib suffix, gets `.har`
appended instead, and raises nothing. -/
theorem c9_amended_assertion_iff_suffix_har (a : Args) (fs0 : FS)
    (hout : a.output = none) :
    outPath a = withSuffixHarS a.input ∧
    ((pcapng_to_har a fs0).err = some (.assertionError a.input)
      ↔ pathSuffixS a.input = ".har") ∧
    (pathSuffixS a.input = ".har" →
      pcapng_to_har a fs0 = ⟨fs0, [], some (.assertionError a.input), none, none⟩) := by
  have hop : outPath a = withSuffixHarS a.input := by
    unfold outPath
    rw [hout]
  have hfire : pathSuffixS a.input = ".har" →
      pcapng_to_har a fs0 = ⟨fs0, [], some (.assertionError a.input), none, none⟩ := by
    intro h
    have : outPath a = a.input := by
      rw [hop]
      exact (withSuffixHarS_eq_self_iff a.input).2 h
    unfold pcapng_to_har
    rw [if_pos this]
  refine ⟨hop, ⟨?_, fun h => by rw [hfire h]⟩, hfire⟩
  intro h
  unfold pcapng_to_har at h
  split at h
  · rename_i hcond
    apply (withSuffixHarS_eq_self_iff a.input).1
    rw [← hop]
    exact hcond
  · split at h
    · exact absurd h (by simp)
    · split at h
      · rename_i e heq
        rcases tsharkLoad_error_shape fs0 a.input e heq with h2 | h2 <;>
          subst h2 <;> exact absurd h (by simp)
      · rename_i har0 heq
        rcases afterLoad_err a fs0 har0 with he | he <;> rw [he] at h <;>
          exact absurd h (by simp)

/-! Counterexamples and concrete witnesses. -/

/-- C3 counterexample: with a valid but empty socket-operations feed, the
stacktrace pass runs and changes nothing (the final document equals the base
document), yet the document is re-serialized: the output file is truncated
and rewritten.  This refutes the claim that re-serialization happens only
when a pass made a change. -/
theorem c3_counterexample_rewrite_without_change :
    (pcapng_to_har { input := "cap.pcapng", socket_operations_file := some "socks.json" }
        [("cap.pcapng", .regular "PCAPNGhello"), ("socks.json", .regular "")]).harBase
      = (pcapng_to_har { input := "cap.pcapng", socket_operations_file := some "socks.json" }
        [("cap.pcapng", .regular "PCAPNGhello"), ("socks.json", .regular "")]).harFinal ∧
    (pcapng_to_har { input := "cap.pcapng", socket_operations_file := some "socks.json" }
        [("cap.pcapng", .regular "PCAPNGhello"), ("socks.json", .regular "")]).harBase
      = some (mkBaseDoc "hello") ∧
    Event.fsTruncate "cap.har"
      ∈ (pcapng_to_har { input := "cap.pcapng", socket_operations_file := some "socks.json" }
        [("cap.pcapng", .regular "PCAPNGhello"), ("socks.json", .regular "")]).events ∧
    (pcapng_to_har { input := "cap.pcapng", socket_operations_file := some "socks.json" }
        [("cap.pcapng", .regular "PCAPNGhello"), ("socks.json", .regular "")]).err = none := by
  decide

/-- C3 witness (amended claim at a concrete input): the enrichment stage was
reached with the socket feed valid, so the output file is truncated for
re-serialization. -/
theorem c3_amended_witness_concrete :
    Event.fsTruncate (outPath { input := "cap.pcapng", socket_operations_file := some "socks.json" })
      ∈ (pcapng_to_har { input := "cap.pcapng", socket_operations_file := some "socks.json" }
          [("cap.pcapng", .regular "PCAPNGhello"), ("socks.json", .regular "")]).events :=
  (c3_amended_rewrite_iff_pass_ran _ _ (mkBaseDoc "hello") (by decide)).1.mpr (Or.inl (by decide))

/-- C4 counterexample: with the socket feed missing, the pass is skipped,
the run succeeds — and the absence is reported by an error-level log
message, while no warning-level message exists anywhere in the trace.  This
refutes the claim that the absence is reported as a warning, not an
error. -/
theorem c4_counterexample_skip_logged_as_error :
    Event.logE .error sfSkipMsg
      ∈ (pcapng_to_har { input := "a.pcapng", socket_operations_file := some "missing.json" }
        [("a.pcapng", .regular "PCAPNG")]).events ∧
    hasWarning (pcapng_to_har { input := "a.pcapng", socket_operations_file := some "missing.json" }
        [("a.pcapng", .regular "PCAPNG")]).events = false ∧
    (pcapng_to_har { input := "a.pcapng", socket_operations_file := some "missing.json" }
        [("a.pcapng", .regular "PCAPNG")]).err = none := by
  decide

/-- C4 witness (amended claim at a concrete input): the cryptography feed is
omitted, so its skip is reported by the error-level log message. -/
theorem c4_amended_witness_concrete :
    Event.logE .error cfSkipMsg
      ∈ (pcapng_to_har { input := "cap.pcapng", socket_operations_file := some "socks.json" }
        [("cap.pcapng", .regular "PCAPNGhello"), ("socks.json", .regular "")]).events :=
  (c4_amended_skip_logged_at_error_level _ _ (mkBaseDoc "hello") (by decide)).2.2.2 (by decide)

/-- C5 counterexample: on a successful enriched run, the trace truncates the
output path itself mid-pipeline and never writes or truncates any other
location — there is no temporary file and no atomic publish, refuting the
claimed write-to-temp-then-rename behavior. -/
theorem c5_counterexample_truncates_in_place :
    Event.fsTruncate "trace.har"
      ∈ (pcapng_to_har { input := "trace.pcapng", socket_operations_file := some "ops.json" }
        [("trace.pcapng", .regular "PCAPNGxyz"), ("ops.json", .regular "")]).events ∧
    writesOutside "trace.har"
      (pcapng_to_har { input := "trace.pcapng", socket_operations_file := some "ops.json" }
        [("trace.pcapng", .regular "PCAPNGxyz"), ("ops.json", .regular "")]).events = false ∧
    (pcapng_to_har { input := "trace.pcapng", socket_operations_file := some "ops.json" }
        [("trace.pcapng", .regular "PCAPNGxyz"), ("ops.json", .regular "")]).err = none := by
  decide

/-- C9 counterexample: the input named `.har` ends in `.har`, yet the run
raises no AssertionError: pathlib gives that name no suffix, `.har` is
appended, and the conversion succeeds, writing `.har.har`. -/
theorem c9_counterexample_dot_har_name :
    ".har".data.isSuffixOf ".har".data = true ∧
    (pcapng_to_har { input := ".har" } [(".har", .regular "PCAPNG")]).err = none ∧
    FS.stat (pcapng_to_har { input := ".har" } [(".har", .regular "PCAPNG")]).fs ".har.har"
      = .regular (serialize (mkBaseDoc "")) := by
  decide

/-- C1 witness: a concrete CLI invocation with a cryptography operations
file. -/
theorem c1_witness_concrete :
    (bindCall "cap.pcapng" none
        (cliKwargs { i := "cap.pcapng",
                     cryptography_operations_file := some "aes.json" })).cryptography_operations_file
      = none ∧
    (bindCall "cap.pcapng" none
        (cliKwargs { i := "cap.pcapng",
                     cryptography_operations_file := some "aes.json" })).json_dump_kws
      = [("cryptographic_operations_file", PyVal.vStr "aes.json")] ∧
    (cli { i := "cap.pcapng", cryptography_operations_file := some "aes.json" } []).events.any
        isDecryptCall = false ∧
    dumpsMissingKey "cryptographic_operations_file"
      (cli { i := "cap.pcapng", cryptography_operations_file := some "aes.json" } []).events
      = false :=
  c1_cli_keyword_mismatch
    { i := "cap.pcapng", cryptography_operations_file := some "aes.json" } "aes.json" [] rfl

/-- C2 witness: the output file already exists and overwrite is off, so the
run raises FileExistsError with nothing written and nothing logged. -/
theorem c2_witness_concrete :
    pcapng_to_har { input := "in.pcapng", output := some "out.har" }
        [("out.har", FileState.regular "old")]
      = ⟨[("out.har", FileState.regular "old")], [],
         some (.fileExistsError "out.har"), none, none⟩ :=
  (c2_fatal_errors_abort_before_output _ _ (by decide)).1 (by decide) rfl

/-- C6 witness: in a run that reaches the enrichment stage, the write of the
unenriched HAR lies before the first enrichment event. -/
theorem c6_witness_concrete :
    Event.fsWrite (outPath { input := "cap.pcapng", socket_operations_file := some "socks.json" })
        (serialize (mkBaseDoc "hello"))
      ∈ ((pcapng_to_har { input := "cap.pcapng", socket_operations_file := some "socks.json" }
          [("cap.pcapng", .regular "PCAPNGhello"), ("socks.json", .regular "")]).events.takeWhile
            (fun ev => !(isEnrichEvent ev))) :=
  c6_base_har_persisted_before_enrichment _ _ (mkBaseDoc "hello") (by decide)

/-- C7 witness: the stacktrace pass matches a socket record and modifies the
document, and with the cryptography feed omitted the body contents of the
final document are still byte-identical to the base document. -/
theorem c7_witness_concrete :
    (stacktraceEnrichDoc (parseSocketOps "7,0,203.0.113.5:443,frameA")
        (mkBaseDoc "hello")).entries.map contentPair
      = (mkBaseDoc "hello").entries.map contentPair :=
  c7_no_crypto_feed_contents_unchanged
    { input := "cap.pcapng", socket_operations_file := some "socks.json" }
    [("cap.pcapng", .regular "PCAPNGhello"),
     ("socks.json", .regular "7,0,203.0.113.5:443,frameA")]
    (mkBaseDoc "hello") _ (by decide) (by decide) (by decide)

/-- C9 witness (amended claim at a concrete input): `x.har` has pathlib
suffix `.har`, so the run raises AssertionError with nothing read, written
or logged. -/
theorem c9_amended_witness_concrete :
    pcapng_to_har { input := "x.har" } []
      = ⟨[], [], some (.assertionError "x.har"), none, none⟩ :=
  (c9_amended_assertion_iff_suffix_har _ _ rfl).2.2 (by decide)
